import Mathlib

/-!
Verification of the lfest-rs simulated futures exchange.

Numeric quantities are embedded as rationals (`ℚ`); the source's numeric
types carry exact decimal/float values whose algebra the algorithms rely on.
Fallible paths (Rust `unwrap`/`expect` on a missing limit price) are embedded
as `Option`, with `none` standing for the panic.

The file has two parts: first the definitions embedding the source
(plus, clearly marked, the spec-side definitions used for refinement
statements), then the theorems.
-/

namespace Lfest

/-- Order side, from `types` (`Side::Buy`, `Side::Sell`). -/
inductive Side where
  | buy
  | sell
deriving DecidableEq, Repr

/-- Futures contract type, from `FuturesTypes` (`Linear`, `Inverse`). -/
inductive FuturesTypes where
  | linear
  | inverse
deriving DecidableEq, Repr

/-- Price multiplier used to convert a size at `price` into the margin
currency: `Linear => price`, `Inverse => 1.0 / price`
(from `limit_order_margin.rs`). -/
def priceMult (ft : FuturesTypes) (price : ℚ) : ℚ :=
  match ft with
  | .linear => price
  | .inverse => 1 / price

/-- An order as consumed by `order_margin` and the `Validator`:
side, quantity (in the size currency) and an optional limit price
(present exactly for limit orders). -/
structure Order where
  oid : ℕ
  side : Side
  quantity : ℚ
  limitPrice : Option ℚ
deriving DecidableEq, Repr

/-- `o.limit_price().unwrap()` value when present (0 as a don't-care default;
the defaulted value is only ever used under an `isSome` hypothesis). -/
def lp (o : Order) : ℚ :=
  o.limitPrice.getD 0

/-- The six running accumulators of the `for` loop in `order_margin`
(`buy_size`, `sell_size`, `buy_price_weight`, `sell_price_weight`,
`buy_side_fees`, `sell_side_fees`). -/
structure OMAcc where
  buySize : ℚ
  sellSize : ℚ
  buyPW : ℚ
  sellPW : ℚ
  buyFees : ℚ
  sellFees : ℚ
deriving DecidableEq, Repr

/-- All-zero accumulator (loop entry state). -/
def OMAcc.zero : OMAcc := ⟨0, 0, 0, 0, 0, 0⟩

/-- Componentwise sum of accumulators. -/
def OMAcc.add (a b : OMAcc) : OMAcc :=
  ⟨a.buySize + b.buySize, a.sellSize + b.sellSize, a.buyPW + b.buyPW,
    a.sellPW + b.sellPW, a.buyFees + b.buyFees, a.sellFees + b.sellFees⟩

/-- One iteration of the `order_margin` loop for an order with limit price
`price`: accumulate size, size-weighted price and maker fee on the order's
side, the fee being `o.size() * price_mult * fee_maker`. -/
def omContrib (ft : FuturesTypes) (feeMaker : ℚ) (o : Order) (price : ℚ) : OMAcc :=
  let fee := o.quantity * priceMult ft price * feeMaker
  match o.side with
  | .buy => ⟨o.quantity, 0, price * o.quantity, 0, fee, 0⟩
  | .sell => ⟨0, o.quantity, 0, price * o.quantity, 0, fee⟩

/-- The `for o in orders` loop of `order_margin`: threads the accumulators
through the list, and diverges (`none`) on the `unwrap` of a missing
limit price. -/
def accumOrders (ft : FuturesTypes) (feeMaker : ℚ) :
    List Order → OMAcc → Option OMAcc
  | [], acc => some acc
  | o :: rest, acc =>
    match o.limitPrice with
    | none => none
    | some price => accumOrders ft feeMaker rest (acc.add (omContrib ft feeMaker o price))

/-- The branch structure after the loop in `order_margin`: the unclamped side
deficits `bsd = buy_size - min(pos_size, 0).abs()` and
`ssd = sell_size - max(pos_size, 0)`, the zero cases (including the two early
`return 0.0`, which skip the fee addition), and otherwise the chosen side's
deficit times the converted size-weighted price, divided by leverage, plus
that side's accumulated maker fees. -/
def omFromAcc (posSize : ℚ) (ft : FuturesTypes) (leverage : ℚ) (a : OMAcc) : ℚ :=
  let bsd := a.buySize - |min posSize 0|
  let ssd := a.sellSize - max posSize 0
  if (a.buySize = 0 ∧ a.sellSize = 0) ∨ (bsd = 0 ∧ ssd = 0) then 0
  else if bsd < ssd then
    if ssd = 0 then 0
    else ssd * priceMult ft (a.sellPW / a.sellSize) / leverage + a.sellFees
  else
    if bsd = 0 then 0
    else bsd * priceMult ft (a.buyPW / a.buySize) / leverage + a.buyFees

/-- `order_margin` from `limit_order_margin.rs`: loop then branch;
`none` models the panic on an order without a limit price. -/
def orderMargin (orders : List Order) (posSize : ℚ) (ft : FuturesTypes)
    (leverage : ℚ) (feeMaker : ℚ) : Option ℚ :=
  (accumOrders ft feeMaker orders OMAcc.zero).map (omFromAcc posSize ft leverage)

/-- Smart constructor for a limit order (as `Order::limit` produces). -/
def limitOrder (i : ℕ) (s : Side) (price qty : ℚ) : Order :=
  ⟨i, s, qty, some price⟩

/-- Closed form of the loop accumulators: componentwise sum of the per-order
contributions, in list order. -/
def omSums (ft : FuturesTypes) (feeMaker : ℚ) : List Order → OMAcc
  | [] => OMAcc.zero
  | o :: rest => (omContrib ft feeMaker o (lp o)).add (omSums ft feeMaker rest)

/-- Spec-side branch logic on the accumulator fields, with the clamped side
deficits `bsd = max(0, buy_size - |min(pos,0)|)` and
`ssd = max(0, sell_size - max(pos,0))` of spec section 4.1.3: zero when both
clamped deficits vanish, otherwise collateralize the larger side (sells when
`ssd > bsd`, buys otherwise). -/
def specFromAcc (posSize : ℚ) (ft : FuturesTypes) (leverage : ℚ) (a : OMAcc) : ℚ :=
  let bsd := max 0 (a.buySize - |min posSize 0|)
  let ssd := max 0 (a.sellSize - max posSize 0)
  if bsd = 0 ∧ ssd = 0 then 0
  else if bsd < ssd then
    ssd * priceMult ft (a.sellPW / a.sellSize) / leverage + a.sellFees
  else
    bsd * priceMult ft (a.buyPW / a.buySize) / leverage + a.buyFees

/-- Spec-side net order-margin algorithm, written from the words of the spec
(section 4.1.3): partition into buys and sells, per-side sizes and
size-weighted prices, clamped side deficits, collateralize only the larger
side at its size-weighted limit price converted per the futures type, divide
by leverage and add the maker fees of the chosen side only. -/
def specNetOrderMargin (orders : List Order) (pos : ℚ) (ft : FuturesTypes)
    (leverage feeMaker : ℚ) : ℚ :=
  let buys := orders.filter fun o => o.side == Side.buy
  let sells := orders.filter fun o => o.side == Side.sell
  let buySize := (buys.map Order.quantity).sum
  let sellSize := (sells.map Order.quantity).sum
  let bsd := max 0 (buySize - |min pos 0|)
  let ssd := max 0 (sellSize - max pos 0)
  if bsd = 0 ∧ ssd = 0 then 0
  else if bsd < ssd then
    let sellWprice := (sells.map fun o => o.quantity * lp o).sum / sellSize
    ssd * priceMult ft sellWprice / leverage
      + (sells.map fun o => o.quantity * priceMult ft (lp o) * feeMaker).sum
  else
    let buyWprice := (buys.map fun o => o.quantity * lp o).sum / buySize
    bsd * priceMult ft buyWprice / leverage
      + (buys.map fun o => o.quantity * priceMult ft (lp o) * feeMaker).sum


/-- Typed order errors from `errors.rs` (`OrderError`). -/
inductive OrderError where
  | maxActiveOrders
  | limitPriceTooLow
  | limitPriceTooHigh
  | limitPriceLargerThanAsk
  | limitPriceLowerThanBid
  | invalidOrderPriceStepSize
  | invalidTriggerPrice
  | orderSizeMustBePositive
  | notEnoughAvailableBalance
deriving DecidableEq, Repr

/-- The account state the `Validator` reads (fields of `Account`, `Margin`
and `Position` that `validator.rs` consumes): position size and leverage,
the margin's `order_margin` and `available_balance`, the id-keyed map of
active limit orders, and the cached open limit sizes. -/
structure Account where
  position_size : ℚ
  leverage : ℚ
  order_margin : ℚ
  available_balance : ℚ
  active_orders : List (ℕ × Order)
  open_limit_buy_size : ℚ
  open_limit_sell_size : ℚ
deriving DecidableEq, Repr

/-- `map.insert(key, value)` on the id-keyed order map: replace the value at
an existing key, else add the binding. -/
def insertKeyed (l : List (ℕ × Order)) (k : ℕ) (v : Order) : List (ℕ × Order) :=
  if l.any fun p => p.1 == k then
    l.map fun p => if p.1 == k then (k, v) else p
  else l ++ [(k, v)]

/-- The `Validator` of `validator.rs`: fee schedule, current quote snapshot
and the open-orders cap. -/
structure Validator where
  fee_maker : ℚ
  fee_taker : ℚ
  bid : ℚ
  ask : ℚ
  max_num_open_orders : ℕ
deriving DecidableEq, Repr

/-- `Validator::limit_order_margin_cost`: clone the active-order map, insert
the candidate under its id, run `order_margin` over the values and subtract
the account's current order-margin field; `none` models the panic inside
`order_margin` on an unpriced order. -/
def limitOrderMarginCost (v : Validator) (ft : FuturesTypes) (o : Order)
    (acc : Account) : Option ℚ :=
  let orders := (insertKeyed acc.active_orders o.oid o).map Prod.snd
  (orderMargin orders acc.position_size ft acc.leverage v.fee_maker).map
    fun needed => needed - acc.order_margin

/-- `Validator::validate_limit_order`: cap check, then the `expect` on the
limit price (`none` models that panic), then the marketable-price checks,
then the available-balance check on the incremental margin. -/
def validateLimitOrder (v : Validator) (ft : FuturesTypes) (o : Order)
    (acc : Account) : Option (Except OrderError ℚ) :=
  if acc.active_orders.length ≥ v.max_num_open_orders then
    some (Except.error OrderError.maxActiveOrders)
  else
    match o.limitPrice with
    | none => none
    | some limit_price =>
      if o.side = Side.buy ∧ limit_price > v.ask then
        some (Except.error OrderError.limitPriceLargerThanAsk)
      else if o.side = Side.sell ∧ limit_price < v.bid then
        some (Except.error OrderError.limitPriceLowerThanBid)
      else
        (limitOrderMarginCost v ft o acc).map fun om =>
          if om > acc.available_balance then Except.error OrderError.notEnoughAvailableBalance
          else Except.ok om

/-- `S::convert(price)` into the margin currency: linear futures margin in
quote (`q * p`), inverse futures margin in base (`q / p`). -/
def convert (ft : FuturesTypes) (q price : ℚ) : ℚ :=
  match ft with
  | .linear => q * price
  | .inverse => q / price

/-- `Validator::order_cost_market`: the (debit, credit) quantity pair by the
sign of the position, divided by leverage, converted at the taker price,
with the taker fee of the full quantity added to the credit.
(`fee_portion` of the missing currency module is quantity times fee rate,
per the fee rule of spec section 3.) -/
def orderCostMarket (v : Validator) (ft : FuturesTypes) (o : Order)
    (acc : Account) : ℚ × ℚ :=
  let pos := acc.position_size
  let dc :=
    if pos = 0 then
      match o.side with
      | .buy => (min o.quantity acc.open_limit_sell_size, o.quantity)
      | .sell => (min o.quantity acc.open_limit_buy_size, o.quantity)
    else if pos > 0 then
      match o.side with
      | .buy => ((0 : ℚ), o.quantity)
      | .sell => (min o.quantity pos, max 0 (o.quantity - pos))
    else
      match o.side with
      | .buy => (min o.quantity |pos|, max 0 (o.quantity - |pos|))
      | .sell => ((0 : ℚ), o.quantity)
  let debit := dc.1 / acc.leverage
  let credit := dc.2 / acc.leverage
  let fee_of_size := o.quantity * v.fee_taker
  let price :=
    match o.side with
    | .buy => v.ask
    | .sell => v.bid
  (convert ft debit price, convert ft credit price + convert ft fee_of_size price)

/-- `Validator::validate_market_order`: accept unless
`credit > available_balance + debit`. -/
def validateMarketOrder (v : Validator) (ft : FuturesTypes) (o : Order)
    (acc : Account) : Except OrderError Unit :=
  let dc := orderCostMarket v ft o acc
  if dc.2 > acc.available_balance + dc.1 then
    Except.error OrderError.notEnoughAvailableBalance
  else Except.ok ()

/-- Spec-side market-order cost rule, written from the words of spec
section 4.1.4: the reducing portion (debit) and the opening portion
(credit) of the quantity, both divided by leverage and converted to the
margin currency at the taker price (ask for a Buy, bid for a Sell), with
the taker fee of the full order quantity added to the credit. -/
def specMarketCost (v : Validator) (ft : FuturesTypes) (o : Order)
    (acc : Account) : ℚ × ℚ :=
  let pos := acc.position_size
  let dc :=
    if pos = 0 then
      match o.side with
      | .buy => (min o.quantity acc.open_limit_sell_size, o.quantity)
      | .sell => (min o.quantity acc.open_limit_buy_size, o.quantity)
    else if pos > 0 then
      match o.side with
      | .buy => ((0 : ℚ), o.quantity)
      | .sell => (min o.quantity pos, max 0 (o.quantity - pos))
    else
      match o.side with
      | .buy => (min o.quantity |pos|, max 0 (o.quantity - |pos|))
      | .sell => ((0 : ℚ), o.quantity)
  let price :=
    match o.side with
    | .buy => v.ask
    | .sell => v.bid
  (convert ft (dc.1 / acc.leverage) price,
    convert ft (dc.2 / acc.leverage) price + convert ft (o.quantity * v.fee_taker) price)

/-- Spec-side limit-order validation chain, written from the words of spec
section 4.1.1 and claim C3: cap check, marketable-price checks, then the
incremental order margin (needed margin over resting orders plus the
candidate, minus the account's current order margin) against the available
balance. -/
def specValidateLimit (v : Validator) (ft : FuturesTypes) (o : Order)
    (acc : Account) : Except OrderError ℚ :=
  if acc.active_orders.length ≥ v.max_num_open_orders then
    Except.error OrderError.maxActiveOrders
  else if o.side = Side.buy ∧ lp o > v.ask then
    Except.error OrderError.limitPriceLargerThanAsk
  else if o.side = Side.sell ∧ lp o < v.bid then
    Except.error OrderError.limitPriceLowerThanBid
  else
    let incremental :=
      specNetOrderMargin (acc.active_orders.map Prod.snd ++ [o])
        acc.position_size ft acc.leverage v.fee_maker - acc.order_margin
    if incremental > acc.available_balance then
      Except.error OrderError.notEnoughAvailableBalance
    else Except.ok incremental


/-- Order types matched by the old `exchange.rs` (the `orders.rs` module
declaring them is not among the sources; variants are those the exchange
matches on). -/
inductive OrderTypeX where
  | market
  | limit
  | stopMarket
  | stopLimit
  | takeProfitLimit
  | takeProfitMarket
deriving DecidableEq, Repr

/-- An order of the old `exchange.rs` (fields are those the exchange reads
and writes: id, type, side, trigger price, size, timestamp, done flag). -/
structure OrderX where
  id : ℕ
  order_type : OrderTypeX
  side : Side
  price : ℚ
  size : ℚ
  timestamp : ℕ
  done : Bool
deriving DecidableEq, Repr

instance : Inhabited OrderX :=
  ⟨⟨0, OrderTypeX.market, Side.buy, 0, 0, 0, false⟩⟩

/-- `Position` of the old `exchange.rs`. -/
structure PositionX where
  size : ℚ
  value : ℚ
  entry_price : ℚ
  liq_price : ℚ
  margin : ℚ
  leverage : ℚ
  unrealized_pnl : ℚ
  roe_percent : ℚ
deriving DecidableEq, Repr

/-- `Margin` of the old `exchange.rs`. -/
structure MarginX where
  wallet_balance : ℚ
  margin_balance : ℚ
  position_margin : ℚ
  order_margin : ℚ
  available_balance : ℚ
deriving DecidableEq, Repr

/-- The configuration fields the old `exchange.rs` reads (the `config.rs`
module is not among the sources; fields are those consumed). -/
structure ConfigX where
  fee_taker : ℚ
  max_leverage : ℚ
  min_leverage : ℚ
  max_active_orders : ℕ
deriving DecidableEq, Repr

/-- `AccTracker` of the old `exchange.rs`. -/
structure AccTracker where
  num_trades : ℤ
  num_buys : ℤ
deriving DecidableEq, Repr

/-- The old `Exchange` state. -/
structure Exchange where
  config : ConfigX
  position : PositionX
  margin : MarginX
  acc_tracker : AccTracker
  bid : ℚ
  ask : ℚ
  init : Bool
  total_rpnl : ℚ
  rpnls : List ℚ
  orders_active : List OrderX
  next_order_id : ℕ
deriving DecidableEq, Repr

/-- A market-data trade event (`trade_aggregation::Trade`): price and signed
size (positive hits the ask, otherwise the bid). -/
structure Trade where
  timestamp : ℕ
  price : ℚ
  size : ℚ
deriving DecidableEq, Repr

/-- `f64::round` (half away from zero), on the exact value. -/
def rustRound (q : ℚ) : ℤ :=
  if 0 ≤ q then ⌊q + 1 / 2⌋ else -⌊-q + 1 / 2⌋

/-- `as i64` on an `f64` value: truncation toward zero. -/
def rustTrunc (q : ℚ) : ℤ :=
  if 0 ≤ q then ⌊q⌋ else -⌊-q⌋

/-- `Exchange::update_liq_price`: flat position clears the trigger; a long
sets `entry - entry/leverage`; a short sets `entry + entry/leverage`. -/
def updateLiqPrice (e : Exchange) : Exchange :=
  if e.position.size = 0 then
    { e with position := { e.position with liq_price := 0 } }
  else if e.position.size > 0 then
    { e with position := { e.position with
        liq_price := e.position.entry_price - e.position.entry_price / e.position.leverage } }
  else
    { e with position := { e.position with
        liq_price := e.position.entry_price + e.position.entry_price / e.position.leverage } }

/-- `Exchange::unrealized_pnl` (inverse-futures pnl at the top of book). -/
def unrealizedPnl (e : Exchange) : ℚ :=
  if e.position.size = 0 then 0
  else if e.position.size > 0 then
    (1 / e.position.entry_price - 1 / e.bid) * |e.position.size|
  else
    (1 / e.ask - 1 / e.position.entry_price) * |e.position.size|

/-- `Exchange::roe`. -/
def roe (e : Exchange) : ℚ :=
  if e.position.size > 0 then
    (e.bid - e.position.entry_price) / e.position.entry_price
  else
    (e.position.entry_price - e.ask) / e.position.entry_price

/-- `Exchange::liquidate`: realize the full position against the opposite
top of book, zero the position, then re-derive the margin fields. -/
def liquidate (e : Exchange) : Exchange :=
  let e1 :=
    if e.position.size > 0 then
      let liq_margin := |e.position.size| / e.bid / e.position.leverage
      let rpnl := |e.position.size| * (1 / e.position.entry_price - 1 / e.bid)
      let ea := { e with
        total_rpnl := e.total_rpnl + rpnl,
        margin := { e.margin with
          wallet_balance := e.margin.wallet_balance + rpnl,
          available_balance := e.margin.available_balance - liq_margin },
        position := { e.position with
          margin := 0, entry_price := 0, size := 0, value := 0,
          unrealized_pnl := 0, roe_percent := 0 } }
      let eb := updateLiqPrice ea
      { eb with
        margin := { eb.margin with
          position_margin := eb.position.value / eb.position.leverage + eb.position.unrealized_pnl,
          margin_balance := eb.margin.wallet_balance + eb.position.unrealized_pnl },
        acc_tracker := { eb.acc_tracker with num_trades := eb.acc_tracker.num_trades + 1 } }
    else
      let liq_margin := |e.position.size| / e.ask / e.position.leverage
      let rpnl := |e.position.size| * (1 / e.position.entry_price - 1 / e.ask)
      let ea := { e with
        total_rpnl := e.total_rpnl + rpnl,
        margin := { e.margin with
          wallet_balance := e.margin.wallet_balance + rpnl,
          available_balance := e.margin.available_balance - liq_margin },
        position := { e.position with
          margin := 0, entry_price := 0, size := 0, value := 0,
          unrealized_pnl := 0, roe_percent := 0 } }
      let eb := updateLiqPrice ea
      { eb with
        margin := { eb.margin with
          position_margin := eb.position.value / eb.position.leverage + eb.position.unrealized_pnl,
          margin_balance := eb.margin.wallet_balance + eb.position.unrealized_pnl },
        acc_tracker := { eb.acc_tracker with
          num_trades := eb.acc_tracker.num_trades + 1,
          num_buys := eb.acc_tracker.num_buys + 1 } }
  let mb := e1.margin.wallet_balance + e1.position.unrealized_pnl
  let pm := e1.position.value / e1.position.leverage + e1.position.unrealized_pnl
  { e1 with margin := { e1.margin with
      margin_balance := mb,
      position_margin := pm,
      available_balance := mb - pm } }

/-- `Exchange::buy_market`: `none` models the `assert!(amount_base > 0)`;
`(e, false)` is the early return on insufficient available balance. -/
def buyMarket (e : Exchange) (amount_base : ℤ) : Option (Exchange × Bool) :=
  if amount_base ≤ 0 then none
  else
    let amt : ℚ := (amount_base : ℚ)
    let fee_base : ℚ := (rustRound (e.config.fee_taker * amt) : ℤ)
    let fee_asset := fee_base / e.ask
    let add_margin := amt / e.ask / e.position.leverage
    if add_margin + fee_asset > e.margin.available_balance then some (e, false)
    else
      let e1 :=
        if e.position.size < 0 then
          let rpnl := (amt - fee_base) * (1 / e.position.entry_price - 1 / e.ask)
          { e with
            total_rpnl := e.total_rpnl + rpnl,
            margin := { e.margin with
              wallet_balance := e.margin.wallet_balance + rpnl,
              available_balance := e.margin.available_balance + (add_margin - fee_asset) },
            position := { e.position with margin := e.position.margin - add_margin },
            rpnls := e.rpnls ++ [rpnl] }
        else
          { e with
            margin := { e.margin with
              available_balance := e.margin.available_balance - (add_margin - fee_asset) },
            position := { e.position with margin := e.position.margin + add_margin } }
      let e2 := { e1 with position := { e1.position with
          entry_price := (e1.ask * amt + e1.position.entry_price * |e1.position.size|)
            / (amt + |e1.position.size|) } }
      let e3 := { e2 with position := { e2.position with size := e2.position.size + amt } }
      let e4 := { e3 with position := { e3.position with value := |e3.position.size| / e3.ask } }
      let e5 := { e4 with position := { e4.position with unrealized_pnl := unrealizedPnl e4 } }
      let e6 := { e5 with position := { e5.position with roe_percent := roe e5 } }
      let e7 := updateLiqPrice e6
      let e8 := { e7 with margin := { e7.margin with
          position_margin := e7.position.value / e7.position.leverage + e7.position.unrealized_pnl,
          margin_balance := e7.margin.wallet_balance + e7.position.unrealized_pnl } }
      some ({ e8 with acc_tracker := {
          num_trades := e8.acc_tracker.num_trades + 1,
          num_buys := e8.acc_tracker.num_buys + 1 } }, true)

/-- `Exchange::sell_market` (note: unlike buys, the taker fee is not
rounded here). -/
def sellMarket (e : Exchange) (amount_base : ℤ) : Option (Exchange × Bool) :=
  if amount_base ≤ 0 then none
  else
    let amt : ℚ := (amount_base : ℚ)
    let fee_base : ℚ := e.config.fee_taker * amt
    let fee_asset := fee_base / e.bid
    let add_margin := amt / e.bid / e.position.leverage
    if add_margin + fee_asset > e.margin.available_balance then some (e, false)
    else
      let e1 :=
        if e.position.size > 0 then
          let rpnl := (amt - fee_base) * (1 / e.bid - 1 / e.position.entry_price)
          { e with
            total_rpnl := e.total_rpnl + rpnl,
            margin := { e.margin with
              wallet_balance := e.margin.wallet_balance + rpnl,
              available_balance := e.margin.available_balance + (add_margin - fee_asset) },
            position := { e.position with margin := e.position.margin - add_margin },
            rpnls := e.rpnls ++ [rpnl] }
        else
          { e with
            margin := { e.margin with
              available_balance := e.margin.available_balance - (add_margin - fee_asset) },
            position := { e.position with margin := e.position.margin + add_margin } }
      let e2 := { e1 with position := { e1.position with
          entry_price := (e1.bid * amt + e1.position.entry_price * |e1.position.size|)
            / (amt + |e1.position.size|) } }
      let e3 := { e2 with position := { e2.position with size := e2.position.size - amt } }
      let e4 := { e3 with position := { e3.position with value := |e3.position.size| / e3.bid } }
      let e5 := { e4 with position := { e4.position with unrealized_pnl := unrealizedPnl e4 } }
      let e6 := { e5 with position := { e5.position with roe_percent := roe e5 } }
      let e7 := updateLiqPrice e6
      let e8 := { e7 with margin := { e7.margin with
          position_margin := e7.position.value / e7.position.leverage + e7.position.unrealized_pnl,
          margin_balance := e7.margin.wallet_balance + e7.position.unrealized_pnl } }
      some ({ e8 with acc_tracker := { e8.acc_tracker with
          num_trades := e8.acc_tracker.num_trades + 1 } }, true)

/-- `Exchange::handle_stop_market_order` at index `i`: trigger when the
stop price is reached, execute a market order of the converted size, and
mark the order done (the market-order success flag is ignored, as in the
source). -/
def handleStopMarket (e : Exchange) (i : ℕ) : Option Exchange :=
  let o := e.orders_active.getD i default
  match o.side with
  | .buy =>
    if o.price > e.ask then some e
    else do
      let r ← buyMarket e (rustTrunc (o.size * e.ask))
      some { r.1 with orders_active := r.1.orders_active.set i { o with done := true } }
  | .sell =>
    if o.price > e.bid then some e
    else do
      let r ← sellMarket e (rustTrunc (o.size * e.bid))
      some { r.1 with orders_active := r.1.orders_active.set i { o with done := true } }

/-- `Exchange::handle_take_profit_market_order` at index `i`. -/
def handleTakeProfitMarket (e : Exchange) (i : ℕ) : Option Exchange :=
  let o := e.orders_active.getD i default
  match o.side with
  | .buy =>
    if o.price < e.bid then some e
    else do
      let r ← buyMarket e (rustTrunc (o.size * e.ask))
      some { r.1 with orders_active := r.1.orders_active.set i { o with done := true } }
  | .sell =>
    if o.price > e.ask then some e
    else do
      let r ← sellMarket e (rustTrunc (o.size * e.bid))
      some { r.1 with orders_active := r.1.orders_active.set i { o with done := true } }

/-- The `for i in 0..len` scan of `check_orders`: `fuel` is the length read
once at loop entry (the handlers never change the list length); `none`
models the panic on the unimplemented order types. -/
def checkOrdersScan : ℕ → ℕ → Exchange → Option Exchange
  | 0, _, e => some e
  | fuel + 1, i, e =>
    match (e.orders_active.getD i default).order_type with
    | .market => checkOrdersScan fuel (i + 1) e
    | .limit => none
    | .stopMarket => do
        let e1 ← handleStopMarket e i
        checkOrdersScan fuel (i + 1) e1
    | .stopLimit => none
    | .takeProfitLimit => none
    | .takeProfitMarket => do
        let e1 ← handleTakeProfitMarket e i
        checkOrdersScan fuel (i + 1) e1

/-- The removal loop of `check_orders`, exactly as written: it increments
the index even after a removal, so the element shifted into the removed
slot is skipped. -/
def removeDoneAux (l : List OrderX) (i : ℕ) : List OrderX :=
  if h : l.length ≤ i then l
  else
    let l1 := if (l.getD i default).done then l.eraseIdx i else l
    removeDoneAux l1 (i + 1)
termination_by l.length - i
decreasing_by
  split
  · have h2 := List.length_eraseIdx_add_one (l := l) (i := i) (by omega)
    omega
  · omega

/-- `Exchange::check_orders`: scan and trigger, then sweep out done
orders. -/
def checkOrders (e : Exchange) : Option Exchange :=
  (checkOrdersScan e.orders_active.length 0 e).map fun e1 =>
    { e1 with orders_active := removeDoneAux e1.orders_active 0 }

/-- The snapshot update at the head of `consume_trade`: a first trade seeds
both sides of the book; afterwards a positive trade size moves the ask and
a nonpositive one the bid. -/
def applyTradeQuote (e : Exchange) (t : Trade) : Exchange :=
  let e0 := if e.init then { e with init := false, bid := t.price, ask := t.price } else e
  if t.size > 0 then { e0 with ask := t.price } else { e0 with bid := t.price }

/-- The margin re-derivation at the tail of `consume_trade` followed by
`check_orders`: `margin_balance = wallet + upnl`,
`position_margin = value/leverage + upnl`,
`available_balance = margin_balance - position_margin`
(the order-margin field is not subtracted). -/
def consumeTradeFinish (e : Exchange) : Option (Exchange × Bool) :=
  let mb := e.margin.wallet_balance + e.position.unrealized_pnl
  let pm := e.position.value / e.position.leverage + e.position.unrealized_pnl
  let e1 := { e with margin := { e.margin with
      margin_balance := mb,
      position_margin := pm,
      available_balance := mb - pm } }
  (checkOrders e1).map fun e2 => (e2, false)

/-- `Exchange::consume_trade`: seed/update the book, check the price-trigger
liquidation (`liq_price` crossing), mark the position to market, re-derive
margins and scan resting orders. -/
def consumeTrade (e : Exchange) (t : Trade) : Option (Exchange × Bool) :=
  let e1 := applyTradeQuote e t
  if e1.position.size > 0 then
    if t.price < e1.position.liq_price then some (liquidate e1, true)
    else
      let e2 := { e1 with position := { e1.position with unrealized_pnl := unrealizedPnl e1 } }
      let e3 := { e2 with position := { e2.position with roe_percent := roe e2 } }
      consumeTradeFinish e3
  else if e1.position.size < 0 then
    if t.price > e1.position.liq_price then some (liquidate e1, true)
    else
      let e2 := { e1 with position := { e1.position with unrealized_pnl := unrealizedPnl e1 } }
      let e3 := { e2 with position := { e2.position with roe_percent := roe e2 } }
      consumeTradeFinish e3
  else
    consumeTradeFinish e1

/-- `Exchange::cancel_order`: remove and return the first active order with
the given id. -/
def cancelOrder (e : Exchange) (order_id : ℕ) : Exchange × Option OrderX :=
  match e.orders_active.find? fun o => o.id == order_id with
  | none => (e, none)
  | some o =>
    ({ e with orders_active := e.orders_active.eraseP fun x => x.id == order_id }, some o)

/-- The old exchange's submit-time errors (`OrderError` of the missing
`orders.rs`; variants are those `submit_order` produces). -/
inductive OrderErrorX where
  | maxActiveOrders
  | invalidOrder
  | notEnoughAvailableBalance
deriving DecidableEq, Repr

/-- `Exchange::validate_stop_market_order`. -/
def validateStopMarketOrder (e : Exchange) (o : OrderX) : Bool :=
  match o.side with
  | .buy => if o.price ≤ e.ask then false else true
  | .sell => if o.price ≥ e.bid then false else true

/-- `Exchange::validate_take_profit_market_order`. -/
def validateTakeProfitMarketOrder (e : Exchange) (o : OrderX) : Bool :=
  match o.side with
  | .buy => if o.price > e.bid then false else true
  | .sell => if o.price < e.ask then false else true

/-- `Exchange::submit_order`.  `now` is the value of the wall clock
(`Utc::now().timestamp_millis()`) observed during the call; it is stamped
onto the accepted order.  `none` models the panics on the unimplemented
order types.  (The margin increase uses the just-computed initial margin;
the source line reads an identifier bound to that value.) -/
def submitOrder (now : ℕ) (e : Exchange) (o : OrderX) :
    Option (Exchange × Option OrderErrorX) :=
  if e.orders_active.length ≥ e.config.max_active_orders then
    some (e, some OrderErrorX.maxActiveOrders)
  else
    let valid? : Option Bool :=
      match o.order_type with
      | .market => some true
      | .limit => none
      | .stopMarket => some (validateStopMarketOrder e o)
      | .stopLimit => none
      | .takeProfitLimit => none
      | .takeProfitMarket => some (validateTakeProfitMarketOrder e o)
    match valid? with
    | none => none
    | some valid =>
      if valid = false then some (e, some OrderErrorX.invalidOrder)
      else
        let init_margin := o.size / e.bid / e.position.leverage
        if init_margin > e.margin.available_balance then
          some (e, some OrderErrorX.notEnoughAvailableBalance)
        else
          let e1 := { e with margin := { e.margin with
              order_margin := e.margin.order_margin + init_margin,
              available_balance := e.margin.available_balance - init_margin } }
          let o1 := { o with id := e1.next_order_id, timestamp := now }
          some ({ e1 with
              next_order_id := e1.next_order_id + 1,
              orders_active := e1.orders_active ++ [o1] }, none)

/-- `Exchange::set_leverage`. -/
def setLeverage (e : Exchange) (l : ℚ) : Exchange × Bool :=
  if l > e.config.max_leverage then (e, false)
  else if l < e.config.min_leverage then (e, false)
  else
    let new_position_margin := e.position.value / l + e.position.unrealized_pnl
    if new_position_margin > e.margin.wallet_balance then (e, false)
    else
      let e1 := { e with position := { e.position with leverage := l } }
      let pm := e1.position.value / e1.position.leverage + e1.position.unrealized_pnl
      let e2 := { e1 with margin := { e1.margin with position_margin := pm } }
      let e3 := { e2 with margin := { e2.margin with
          available_balance := e2.margin.margin_balance - e2.margin.order_margin
            - e2.margin.position_margin } }
      (e3, true)

/-- The margin identity claimed by the spec (section 8, invariant 2):
`available_balance = wallet_balance - position_margin - order_margin`. -/
def marginIdentity (m : MarginX) : Prop :=
  m.available_balance = m.wallet_balance - m.position_margin - m.order_margin

/-- The spec's liquidation trigger (section 4.4, claim C5 wording): after
applying mark-to-market at the new snapshot,
`position_margin + order_margin > wallet_balance + unrealized_pnl`. -/
def specLiqCondition (e : Exchange) (t : Trade) : Prop :=
  let e1 := applyTradeQuote e t
  e1.margin.position_margin + e1.margin.order_margin
    > e1.margin.wallet_balance + unrealizedPnl e1

/-- Erase the wall-clock-derived timestamps of the resting orders. -/
def clearTimestamps (e : Exchange) : Exchange :=
  { e with orders_active := e.orders_active.map fun o => { o with timestamp := 0 } }


/-- Modelled from the spec: `Account::append_limit_order` (the `account.rs`
module is not among the sources; spec sections 4.2.1 and 4.3): insert the
order into the resting map under its id, charge the incremental margin
(`order_margin` grows and `available_balance` shrinks by it), and grow the
cached open size of the order's side. -/
def appendLimitOrder (acc : Account) (o : Order) (incremental : ℚ) : Account :=
  { acc with
    active_orders := insertKeyed acc.active_orders o.oid o,
    order_margin := acc.order_margin + incremental,
    available_balance := acc.available_balance - incremental,
    open_limit_buy_size :=
      acc.open_limit_buy_size + (if o.side = Side.buy then o.quantity else 0),
    open_limit_sell_size :=
      acc.open_limit_sell_size + (if o.side = Side.sell then o.quantity else 0) }

/-- Modelled from the spec: `Account::cancel_limit_order(id)` (the
`account.rs` module is not among the sources; spec sections 4.3 and 4.2.4):
remove the order, recompute the order margin by re-running the net
order-margin algorithm of section 4.1.3 over the remaining resting orders,
and release the delta into the available balance. -/
def cancelLimitOrder (ft : FuturesTypes) (fee_maker : ℚ) (acc : Account)
    (oid : ℕ) : Option (Account × Order) :=
  match acc.active_orders.find? fun p => p.1 == oid with
  | none => none
  | some po =>
    let rest := acc.active_orders.filter fun p => !(p.1 == oid)
    let newOM := specNetOrderMargin (rest.map Prod.snd) acc.position_size ft
      acc.leverage fee_maker
    some ({ acc with
      active_orders := rest,
      order_margin := newOM,
      available_balance := acc.available_balance + (acc.order_margin - newOM),
      open_limit_buy_size :=
        acc.open_limit_buy_size - (if po.2.side = Side.buy then po.2.quantity else 0),
      open_limit_sell_size :=
        acc.open_limit_sell_size - (if po.2.side = Side.sell then po.2.quantity else 0) },
      po.2)

/-- Modelled from the spec: the limit-order path of the reworked
`Exchange::submit_order` (spec section 4.2.1; that exchange module is not
among the sources, only its tests): validate through the in-source
validator, then insert and charge the returned incremental margin. -/
def submitLimitOrder (v : Validator) (ft : FuturesTypes) (acc : Account)
    (o : Order) : Option (Except OrderError Account) :=
  (validateLimitOrder v ft o acc).map fun r =>
    match r with
    | Except.error err => Except.error err
    | Except.ok om => Except.ok (appendLimitOrder acc o om)


/-- Fixture constructor for concrete old-exchange states (zero fees, wide
leverage bounds, cap of 10 open orders). -/
def mkExchange (pos : PositionX) (m : MarginX) (bid ask : ℚ)
    (orders : List OrderX) : Exchange :=
  { config := ⟨0, 100, 1, 10⟩, position := pos, margin := m,
    acc_tracker := ⟨0, 0⟩, bid := bid, ask := ask, init := false,
    total_rpnl := 0, rpnls := [], orders_active := orders, next_order_id := 0 }

/-! ## Theorems -/

theorem OMAcc.add_zero_left (a : OMAcc) : add zero a = a := by
  cases a; simp [add, zero]

theorem OMAcc.add_zero_right (a : OMAcc) : add a zero = a := by
  cases a; simp [add, zero]

theorem OMAcc.add_assoc (a b c : OMAcc) : add (add a b) c = add a (add b c) := by
  cases a; cases b; cases c; simp only [add]; ring_nf

theorem OMAcc.add_left_comm (a b c : OMAcc) : add a (add b c) = add b (add a c) := by
  cases a; cases b; cases c; simp only [add]; ring_nf

/-- The loop succeeds exactly on lists of priced orders, producing the
componentwise sums. -/
theorem accumOrders_eq_some (ft : FuturesTypes) (f : ℚ) (l : List Order)
    (acc : OMAcc) (h : ∀ o ∈ l, o.limitPrice.isSome) :
    accumOrders ft f l acc = some (acc.add (omSums ft f l)) := by
  induction l generalizing acc with
  | nil => simp [accumOrders, omSums, OMAcc.add_zero_right]
  | cons o t ih =>
    have ho : o.limitPrice.isSome := h o (List.mem_cons_self o t)
    obtain ⟨p, hp⟩ := Option.isSome_iff_exists.mp ho
    have hlp : lp o = p := by simp [lp, hp]
    simp only [accumOrders, hp]
    rw [ih _ (fun x hx => h x (List.mem_cons_of_mem o hx))]
    rw [omSums, hlp, OMAcc.add_assoc]

/-- The loop diverges whenever some order in the list has no limit price. -/
theorem accumOrders_eq_none (ft : FuturesTypes) (f : ℚ) (l : List Order)
    (acc : OMAcc) (h : ∃ o ∈ l, o.limitPrice = none) :
    accumOrders ft f l acc = none := by
  induction l generalizing acc with
  | nil => obtain ⟨o, ho, _⟩ := h; exact absurd ho (List.not_mem_nil o)
  | cons o t ih =>
    obtain ⟨x, hx, hxn⟩ := h
    rcases List.mem_cons.mp hx with rfl | hxt
    · simp [accumOrders, hxn]
    · cases hp : x.limitPrice with
      | none =>
        cases hop : o.limitPrice with
        | none => simp [accumOrders, hop]
        | some q => simp only [accumOrders, hop]; exact ih _ ⟨x, hxt, hp⟩
      | some q => rw [hp] at hxn; exact absurd hxn (by simp)
end Lfest

namespace Lfest

theorem omSums_buySize (ft : FuturesTypes) (f : ℚ) (l : List Order) :
    (omSums ft f l).buySize
      = ((l.filter fun o => o.side == Side.buy).map Order.quantity).sum := by
  induction l with
  | nil => simp [omSums, OMAcc.zero]
  | cons o t ih =>
    cases h : o.side <;>
      simp [omSums, OMAcc.add, omContrib, h, ih, List.filter_cons]

theorem omSums_sellSize (ft : FuturesTypes) (f : ℚ) (l : List Order) :
    (omSums ft f l).sellSize
      = ((l.filter fun o => o.side == Side.sell).map Order.quantity).sum := by
  induction l with
  | nil => simp [omSums, OMAcc.zero]
  | cons o t ih =>
    cases h : o.side <;>
      simp [omSums, OMAcc.add, omContrib, h, ih, List.filter_cons]

theorem omSums_buyPW (ft : FuturesTypes) (f : ℚ) (l : List Order) :
    (omSums ft f l).buyPW
      = ((l.filter fun o => o.side == Side.buy).map fun o => o.quantity * lp o).sum := by
  induction l with
  | nil => simp [omSums, OMAcc.zero]
  | cons o t ih =>
    cases h : o.side <;>
      simp [omSums, OMAcc.add, omContrib, h, ih, List.filter_cons] <;> ring

theorem omSums_sellPW (ft : FuturesTypes) (f : ℚ) (l : List Order) :
    (omSums ft f l).sellPW
      = ((l.filter fun o => o.side == Side.sell).map fun o => o.quantity * lp o).sum := by
  induction l with
  | nil => simp [omSums, OMAcc.zero]
  | cons o t ih =>
    cases h : o.side <;>
      simp [omSums, OMAcc.add, omContrib, h, ih, List.filter_cons] <;> ring

theorem omSums_buyFees (ft : FuturesTypes) (f : ℚ) (l : List Order) :
    (omSums ft f l).buyFees
      = ((l.filter fun o => o.side == Side.buy).map
          fun o => o.quantity * priceMult ft (lp o) * f).sum := by
  induction l with
  | nil => simp [omSums, OMAcc.zero]
  | cons o t ih =>
    cases h : o.side <;>
      simp [omSums, OMAcc.add, omContrib, h, ih, List.filter_cons]

theorem omSums_sellFees (ft : FuturesTypes) (f : ℚ) (l : List Order) :
    (omSums ft f l).sellFees
      = ((l.filter fun o => o.side == Side.sell).map
          fun o => o.quantity * priceMult ft (lp o) * f).sum := by
  induction l with
  | nil => simp [omSums, OMAcc.zero]
  | cons o t ih =>
    cases h : o.side <;>
      simp [omSums, OMAcc.add, omContrib, h, ih, List.filter_cons]

/-- The spec-side algorithm over a list of orders agrees with the spec-side
branch logic applied to the accumulator sums. -/
theorem specNet_eq_specFromAcc (orders : List Order) (pos : ℚ)
    (ft : FuturesTypes) (lev f : ℚ) :
    specNetOrderMargin orders pos ft lev f
      = specFromAcc pos ft lev (omSums ft f orders) := by
  simp only [specNetOrderMargin, specFromAcc, omSums_buySize, omSums_sellSize,
    omSums_buyPW, omSums_sellPW, omSums_buyFees, omSums_sellFees]
end Lfest

namespace Lfest

/-- The branch structure of the source (unclamped deficits with early zero
returns) agrees with the clamped-deficit branch structure of the spec,
abstractly in the collateral values of the two sides. -/
theorem branch_eq (B S m M : ℚ) (Vs Vb : ℚ → ℚ)
    (hB : 0 ≤ B) (hS : 0 ≤ S) (hm : 0 ≤ m) (hM : 0 ≤ M)
    (hmM : m = 0 ∨ M = 0) :
    (if (B = 0 ∧ S = 0) ∨ (B - m = 0 ∧ S - M = 0) then 0
     else if B - m < S - M then (if S - M = 0 then (0 : ℚ) else Vs (S - M))
     else (if B - m = 0 then 0 else Vb (B - m)))
    = (if max 0 (B - m) = 0 ∧ max 0 (S - M) = 0 then 0
       else if max 0 (B - m) < max 0 (S - M) then Vs (max 0 (S - M))
       else Vb (max 0 (B - m))) := by
  rcases hmM with hm0 | hM0
  · -- m = 0 : the buy-side deficit is B itself
    subst hm0
    rw [sub_zero, max_eq_right hB]
    by_cases hB0 : B = 0
    · rcases le_or_lt (S - M) 0 with hsle | hspos
      · have hRc : max 0 (S - M) = 0 := max_eq_left hsle
        have hR : B = 0 ∧ max 0 (S - M) = 0 := ⟨hB0, hRc⟩
        rw [if_pos hR]
        rcases eq_or_lt_of_le hsle with hseq | hslt
        · have hL : (B = 0 ∧ S = 0) ∨ (B = 0 ∧ S - M = 0) := Or.inr ⟨hB0, hseq⟩
          rw [if_pos hL]
        · by_cases hS0 : S = 0
          · have hL : (B = 0 ∧ S = 0) ∨ (B = 0 ∧ S - M = 0) := Or.inl ⟨hB0, hS0⟩
            rw [if_pos hL]
          · have hc1 : ¬((B = 0 ∧ S = 0) ∨ (B = 0 ∧ S - M = 0)) := by
              rintro (⟨_, h⟩ | ⟨_, h⟩)
              · exact hS0 h
              · linarith
            have hc2 : ¬ B < S - M := by rw [hB0]; linarith
            rw [if_neg hc1, if_neg hc2, if_pos hB0]
      · have hRs : max 0 (S - M) = S - M := max_eq_right (le_of_lt hspos)
        have hSpos : 0 < S := by linarith
        have hc1 : ¬((B = 0 ∧ S = 0) ∨ (B = 0 ∧ S - M = 0)) := by
          rintro (⟨_, h⟩ | ⟨_, h⟩) <;> linarith
        have hcR : ¬(B = 0 ∧ max 0 (S - M) = 0) := by
          rw [hRs]; rintro ⟨_, h⟩; linarith
        have hlt : B < S - M := by rw [hB0]; linarith
        have hne : ¬ S - M = 0 := by linarith
        have hltR : B < max 0 (S - M) := by rw [hRs]; exact hlt
        rw [if_neg hc1, if_pos hlt, if_neg hne, if_neg hcR, if_pos hltR, hRs]
    · have hBpos : 0 < B := lt_of_le_of_ne hB (Ne.symm hB0)
      have hc1 : ¬((B = 0 ∧ S = 0) ∨ (B = 0 ∧ S - M = 0)) := by
        rintro (⟨h, _⟩ | ⟨h, _⟩) <;> exact hB0 h
      have hcR : ¬(B = 0 ∧ max 0 (S - M) = 0) := by
        rintro ⟨h, _⟩; exact hB0 h
      rw [if_neg hc1, if_neg hcR]
      by_cases hbs : B < S - M
      · have hspos : 0 < S - M := lt_trans hBpos hbs
        have hRs : max 0 (S - M) = S - M := max_eq_right (le_of_lt hspos)
        have hne : ¬ S - M = 0 := by linarith
        have hltR : B < max 0 (S - M) := by rw [hRs]; exact hbs
        rw [if_pos hbs, if_neg hne, if_pos hltR, hRs]
      · have hmaxle : max 0 (S - M) ≤ B := by
          rcases max_choice 0 (S - M) with h | h <;> rw [h]
          · exact hB
          · exact le_of_not_lt hbs
        rw [if_neg hbs, if_neg hB0, if_neg (not_lt.mpr hmaxle)]
  · -- M = 0 : the sell-side deficit is S itself
    subst hM0
    rw [sub_zero, max_eq_right hS]
    by_cases hS0 : S = 0
    · rcases le_or_lt (B - m) 0 with hble | hbpos
      · have hRc : max 0 (B - m) = 0 := max_eq_left hble
        have hR : max 0 (B - m) = 0 ∧ S = 0 := ⟨hRc, hS0⟩
        rw [if_pos hR]
        rcases eq_or_lt_of_le hble with hbeq | hblt
        · have hL : (B = 0 ∧ S = 0) ∨ (B - m = 0 ∧ S = 0) := Or.inr ⟨hbeq, hS0⟩
          rw [if_pos hL]
        · by_cases hB0 : B = 0
          · have hL : (B = 0 ∧ S = 0) ∨ (B - m = 0 ∧ S = 0) := Or.inl ⟨hB0, hS0⟩
            rw [if_pos hL]
          · have hc1 : ¬((B = 0 ∧ S = 0) ∨ (B - m = 0 ∧ S = 0)) := by
              rintro (⟨h, _⟩ | ⟨h, _⟩)
              · exact hB0 h
              · linarith
            have hc2 : B - m < S := by rw [hS0]; linarith
            rw [if_neg hc1, if_pos hc2, if_pos hS0]
      · have hRb : max 0 (B - m) = B - m := max_eq_right (le_of_lt hbpos)
        have hBpos : 0 < B := by linarith
        have hc1 : ¬((B = 0 ∧ S = 0) ∨ (B - m = 0 ∧ S = 0)) := by
          rintro (⟨h, _⟩ | ⟨h, _⟩) <;> linarith
        have hcR : ¬(max 0 (B - m) = 0 ∧ S = 0) := by
          rw [hRb]; rintro ⟨h, _⟩; linarith
        have hnlt : ¬ B - m < S := by rw [hS0]; linarith
        have hne : ¬ B - m = 0 := by linarith
        have hnltR : ¬ max 0 (B - m) < S := by rw [hRb]; exact hnlt
        rw [if_neg hc1, if_neg hnlt, if_neg hne, if_neg hcR, if_neg hnltR, hRb]
    · have hSpos : 0 < S := lt_of_le_of_ne hS (Ne.symm hS0)
      have hc1 : ¬((B = 0 ∧ S = 0) ∨ (B - m = 0 ∧ S = 0)) := by
        rintro (⟨_, h⟩ | ⟨_, h⟩) <;> exact hS0 h
      have hcR : ¬(max 0 (B - m) = 0 ∧ S = 0) := by
        rintro ⟨_, h⟩; exact hS0 h
      rw [if_neg hc1, if_neg hcR]
      by_cases hbs : B - m < S
      · rw [if_pos hbs, if_neg hS0, if_pos (max_lt hSpos hbs)]
      · have hbpos : 0 < B - m := lt_of_lt_of_le hSpos (le_of_not_lt hbs)
        have hne : ¬ B - m = 0 := by linarith
        have hRb : max 0 (B - m) = B - m := max_eq_right (le_of_lt hbpos)
        have hnltR : ¬ max 0 (B - m) < S := by rw [hRb]; exact hbs
        rw [if_neg hbs, if_neg hne, if_neg hnltR, hRb]

/-- On accumulators with nonnegative side sizes the source branch logic
equals the spec branch logic. -/
theorem omFromAcc_eq_specFromAcc (pos : ℚ) (ft : FuturesTypes) (lev : ℚ)
    (a : OMAcc) (hB : 0 ≤ a.buySize) (hS : 0 ≤ a.sellSize) :
    omFromAcc pos ft lev a = specFromAcc pos ft lev a := by
  have hmM : |min pos 0| = 0 ∨ max pos 0 = 0 := by
    rcases le_total pos 0 with h | h
    · exact Or.inr (max_eq_right h)
    · exact Or.inl (by rw [min_eq_right h, abs_zero])
  have key := branch_eq a.buySize a.sellSize (|min pos 0|) (max pos 0)
    (fun x => x * priceMult ft (a.sellPW / a.sellSize) / lev + a.sellFees)
    (fun x => x * priceMult ft (a.buyPW / a.buySize) / lev + a.buyFees)
    hB hS (abs_nonneg _) (le_max_right _ _) hmM
  simpa only [omFromAcc, specFromAcc] using key

/-- C1: for limit orders of positive quantity and positive limit price,
any signed position size, futures type, leverage at least 1 and
nonnegative maker fee rate, `order_margin` returns exactly the value of
the spec's net order-margin algorithm (section 4.1.3): zero when both
clamped side deficits vanish, otherwise the larger side's deficit at that
side's size-weighted limit price converted per the futures type, divided
by leverage, plus the maker fees of the chosen side only. -/
theorem orderMargin_matches_specNet (orders : List Order) (pos : ℚ)
    (ft : FuturesTypes) (lev f : ℚ)
    (hq : ∀ o ∈ orders, 0 < o.quantity)
    (hp : ∀ o ∈ orders, ∃ q, o.limitPrice = some q ∧ 0 < q)
    (hlev : 1 ≤ lev) (hf : 0 ≤ f) :
    orderMargin orders pos ft lev f
      = some (specNetOrderMargin orders pos ft lev f) := by
  have hsome : ∀ o ∈ orders, o.limitPrice.isSome := by
    intro o ho
    obtain ⟨q, hq1, _⟩ := hp o ho
    simp [hq1]
  have hB : 0 ≤ (omSums ft f orders).buySize := by
    rw [omSums_buySize]
    apply List.sum_nonneg
    intro x hx
    obtain ⟨o, ho, rfl⟩ := List.mem_map.mp hx
    exact le_of_lt (hq o (List.mem_of_mem_filter ho))
  have hS : 0 ≤ (omSums ft f orders).sellSize := by
    rw [omSums_sellSize]
    apply List.sum_nonneg
    intro x hx
    obtain ⟨o, ho, rfl⟩ := List.mem_map.mp hx
    exact le_of_lt (hq o (List.mem_of_mem_filter ho))
  unfold orderMargin
  rw [accumOrders_eq_some _ _ _ _ hsome, OMAcc.add_zero_left, Option.map_some']
  rw [omFromAcc_eq_specFromAcc _ _ _ _ hB hS, specNet_eq_specFromAcc]

theorem orderMargin_matches_specNet_witness :
    orderMargin [limitOrder 7 Side.buy 100 2, limitOrder 8 Side.sell 105 1]
        (-1) FuturesTypes.linear 2 (1 / 100)
      = some (specNetOrderMargin
          [limitOrder 7 Side.buy 100 2, limitOrder 8 Side.sell 105 1]
          (-1) FuturesTypes.linear 2 (1 / 100)) :=
  orderMargin_matches_specNet _ _ _ _ _
    (by intro o ho; fin_cases ho <;> norm_num [limitOrder])
    (by intro o ho; fin_cases ho <;> exact ⟨_, rfl, by norm_num⟩)
    (by norm_num) (by norm_num)

/-- The accumulator sums depend only on the multiset of orders. -/
theorem omSums_perm (ft : FuturesTypes) (f : ℚ) {l₁ l₂ : List Order}
    (h : l₁.Perm l₂) : omSums ft f l₁ = omSums ft f l₂ := by
  induction h with
  | nil => rfl
  | cons x h ih => simp only [omSums, ih]
  | swap x y t => simp only [omSums, OMAcc.add_left_comm]
  | trans h1 h2 ih1 ih2 => rw [ih1, ih2]

/-- C9: `order_margin` returns the same value on every permutation of its
input order list; the result depends only on the multiset of orders, since
it is computed from per-side sums. -/
theorem orderMargin_perm_invariant (pos : ℚ) (ft : FuturesTypes) (lev f : ℚ)
    (l₁ l₂ : List Order) (h : l₁.Perm l₂) :
    orderMargin l₁ pos ft lev f = orderMargin l₂ pos ft lev f := by
  by_cases hall : ∀ o ∈ l₁, o.limitPrice.isSome
  · have hall₂ : ∀ o ∈ l₂, o.limitPrice.isSome := fun o ho =>
      hall o (h.mem_iff.mpr ho)
    unfold orderMargin
    rw [accumOrders_eq_some _ _ _ _ hall, accumOrders_eq_some _ _ _ _ hall₂,
      omSums_perm ft f h]
  · push_neg at hall
    obtain ⟨o, ho, hn⟩ := hall
    have hnone : o.limitPrice = none := by
      cases hx : o.limitPrice
      · rfl
      · rw [hx] at hn; simp at hn
    unfold orderMargin
    rw [accumOrders_eq_none _ _ _ _ ⟨o, ho, hnone⟩,
      accumOrders_eq_none _ _ _ _ ⟨o, h.mem_iff.mp ho, hnone⟩]

theorem orderMargin_perm_invariant_witness :
    orderMargin [limitOrder 0 Side.buy 100 1, limitOrder 1 Side.sell 105 2]
        0 FuturesTypes.inverse 3 (1 / 500)
      = orderMargin [limitOrder 1 Side.sell 105 2, limitOrder 0 Side.buy 100 1]
        0 FuturesTypes.inverse 3 (1 / 500) :=
  orderMargin_perm_invariant _ _ _ _ _ _ (List.Perm.swap _ _ _)
end Lfest

namespace Lfest

/-- Inserting a fresh key into the id-keyed map appends the binding. -/
theorem insertKeyed_fresh (l : List (ℕ × Order)) (k : ℕ) (v : Order)
    (h : ∀ p ∈ l, p.1 ≠ k) : insertKeyed l k v = l ++ [(k, v)] := by
  have hc : ¬ (l.any fun p => p.1 == k) = true := by
    intro hc
    obtain ⟨p, hp, hpk⟩ := List.any_eq_true.mp hc
    exact h p hp (by simpa using hpk)
  unfold insertKeyed
  rw [if_neg hc]

/-- Every value of the map after an insert is an old value or the inserted
one. -/
theorem insertKeyed_snd_mem (l : List (ℕ × Order)) (k : ℕ) (v : Order)
    (x : Order) (hx : x ∈ (insertKeyed l k v).map Prod.snd) :
    x ∈ l.map Prod.snd ∨ x = v := by
  unfold insertKeyed at hx
  by_cases hc : l.any fun p => p.1 == k
  · rw [if_pos hc] at hx
    rw [List.map_map] at hx
    obtain ⟨p, hp, hpx⟩ := List.mem_map.mp hx
    by_cases hk : p.1 == k
    · right
      simp only [Function.comp_apply, if_pos hk] at hpx
      exact hpx.symm
    · left
      simp only [Function.comp_apply, if_neg hk] at hpx
      exact List.mem_map.mpr ⟨p, hp, hpx⟩
  · rw [if_neg hc] at hx
    rw [List.map_append] at hx
    rcases List.mem_append.mp hx with h1 | h1
    · exact Or.inl h1
    · right; simpa using h1

/-- C3: `validate_limit_order` applies, in exactly this precedence, the
max-open-orders check, the marketable-price checks, and the
available-balance check on the incremental order margin (needed order
margin over resting orders plus the candidate, minus the account's current
order margin), returning that incremental margin on success
(stated for well-formed inputs: a candidate with a fresh id, and candidate
and resting orders all priced limit orders of positive quantity). -/
theorem validateLimitOrder_matches_spec (v : Validator) (ft : FuturesTypes)
    (o : Order) (acc : Account)
    (hfresh : ∀ p ∈ acc.active_orders, p.1 ≠ o.oid)
    (hq : ∀ x ∈ acc.active_orders.map Prod.snd ++ [o], 0 < x.quantity)
    (hp : ∀ x ∈ acc.active_orders.map Prod.snd ++ [o],
      ∃ q, x.limitPrice = some q ∧ 0 < q)
    (hlev : 1 ≤ acc.leverage) (hf : 0 ≤ v.fee_maker) :
    validateLimitOrder v ft o acc = some (specValidateLimit v ft o acc) := by
  obtain ⟨p, hlp, _⟩ := hp o (List.mem_append_right _ (List.mem_singleton.mpr rfl))
  have hcost : limitOrderMarginCost v ft o acc
      = some (specNetOrderMargin (acc.active_orders.map Prod.snd ++ [o])
          acc.position_size ft acc.leverage v.fee_maker - acc.order_margin) := by
    simp only [limitOrderMarginCost]
    rw [insertKeyed_fresh _ _ _ hfresh]
    simp only [List.map_append, List.map_cons, List.map_nil]
    rw [orderMargin_matches_specNet _ _ _ _ _ hq hp hlev hf]
    rfl
  have hlpo : lp o = p := by simp [lp, hlp]
  by_cases hcap : acc.active_orders.length ≥ v.max_num_open_orders
  · have h1 : validateLimitOrder v ft o acc
        = some (Except.error OrderError.maxActiveOrders) := by
      unfold validateLimitOrder
      rw [if_pos hcap]
    have h2 : specValidateLimit v ft o acc
        = Except.error OrderError.maxActiveOrders := by
      unfold specValidateLimit
      rw [if_pos hcap]
    rw [h1, h2]
  · have hred : validateLimitOrder v ft o acc
        = (if o.side = Side.buy ∧ p > v.ask then
            some (Except.error OrderError.limitPriceLargerThanAsk)
          else if o.side = Side.sell ∧ p < v.bid then
            some (Except.error OrderError.limitPriceLowerThanBid)
          else
            (limitOrderMarginCost v ft o acc).map fun om =>
              if om > acc.available_balance then
                Except.error OrderError.notEnoughAvailableBalance
              else Except.ok om) := by
      unfold validateLimitOrder
      rw [if_neg hcap, hlp]
    have hspec : specValidateLimit v ft o acc
        = (if o.side = Side.buy ∧ p > v.ask then
            Except.error OrderError.limitPriceLargerThanAsk
          else if o.side = Side.sell ∧ p < v.bid then
            Except.error OrderError.limitPriceLowerThanBid
          else
            if specNetOrderMargin (acc.active_orders.map Prod.snd ++ [o])
                acc.position_size ft acc.leverage v.fee_maker - acc.order_margin
                > acc.available_balance then
              Except.error OrderError.notEnoughAvailableBalance
            else Except.ok (specNetOrderMargin (acc.active_orders.map Prod.snd ++ [o])
                acc.position_size ft acc.leverage v.fee_maker - acc.order_margin)) := by
      unfold specValidateLimit
      rw [if_neg hcap, hlpo]
    rw [hred, hspec]
    by_cases h1 : o.side = Side.buy ∧ p > v.ask
    · rw [if_pos h1, if_pos h1]
    · rw [if_neg h1, if_neg h1]
      by_cases h2 : o.side = Side.sell ∧ p < v.bid
      · rw [if_pos h2, if_pos h2]
      · rw [if_neg h2, if_neg h2, hcost]
        rfl

theorem validateLimitOrder_matches_spec_witness :
    validateLimitOrder ⟨0, 0, 99, 100, 10⟩ FuturesTypes.linear
        (limitOrder 0 Side.buy 98 5) ⟨0, 1, 0, 1000, [], 0, 0⟩
      = some (specValidateLimit ⟨0, 0, 99, 100, 10⟩ FuturesTypes.linear
          (limitOrder 0 Side.buy 98 5) ⟨0, 1, 0, 1000, [], 0, 0⟩) :=
  validateLimitOrder_matches_spec _ _ _ _
    (by intro p hp; simp at hp)
    (by intro x hx; simp at hx; subst hx; norm_num [limitOrder])
    (by intro x hx; simp at hx; subst hx; exact ⟨_, rfl, by norm_num⟩)
    (by norm_num) (by norm_num)

/-- C4: `order_cost_market` computes the (debit, credit) pair of the
spec's market-order cost rule (section 4.1.4), and `validate_market_order`
rejects with `NotEnoughAvailableBalance` exactly when
`credit > available_balance + debit`, accepting otherwise. -/
theorem validateMarketOrder_matches_spec (v : Validator) (ft : FuturesTypes)
    (o : Order) (acc : Account) :
    orderCostMarket v ft o acc = specMarketCost v ft o acc
    ∧ (validateMarketOrder v ft o acc
          = Except.error OrderError.notEnoughAvailableBalance
        ↔ (specMarketCost v ft o acc).2
            > acc.available_balance + (specMarketCost v ft o acc).1)
    ∧ (validateMarketOrder v ft o acc = Except.ok ()
        ↔ ¬ (specMarketCost v ft o acc).2
            > acc.available_balance + (specMarketCost v ft o acc).1) := by
  have hcost : orderCostMarket v ft o acc = specMarketCost v ft o acc := rfl
  refine ⟨hcost, ?_, ?_⟩
  · unfold validateMarketOrder
    rw [hcost]
    by_cases hc : (specMarketCost v ft o acc).2
        > acc.available_balance + (specMarketCost v ft o acc).1
    · rw [if_pos hc]
      simp [hc]
    · rw [if_neg hc]
      simp [hc]
  · unfold validateMarketOrder
    rw [hcost]
    by_cases hc : (specMarketCost v ft o acc).2
        > acc.available_balance + (specMarketCost v ft o acc).1
    · rw [if_pos hc]
      simp [hc]
    · rw [if_neg hc]
      simp [hc]

/-- C10: `order_margin` and `validate_limit_order` demand priced (limit)
orders: on priced inputs the `unwrap`/`expect` panic branches are
unreachable (the functions return a value), while an unpriced order makes
`order_margin` panic, and makes `validate_limit_order` panic whenever the
max-open-orders check passes. -/
theorem limitPrice_panic_characterization :
    (∀ (orders : List Order) (pos : ℚ) (ft : FuturesTypes) (lev f : ℚ),
        (∀ o ∈ orders, o.limitPrice.isSome) →
        (orderMargin orders pos ft lev f).isSome)
    ∧ (∀ (orders : List Order) (pos : ℚ) (ft : FuturesTypes) (lev f : ℚ)
        (o : Order), o ∈ orders → o.limitPrice = none →
        orderMargin orders pos ft lev f = none)
    ∧ (∀ (v : Validator) (ft : FuturesTypes) (o : Order) (acc : Account),
        o.limitPrice.isSome →
        (∀ p ∈ acc.active_orders, (Prod.snd p).limitPrice.isSome) →
        (validateLimitOrder v ft o acc).isSome)
    ∧ (∀ (v : Validator) (ft : FuturesTypes) (o : Order) (acc : Account),
        o.limitPrice = none →
        acc.active_orders.length < v.max_num_open_orders →
        validateLimitOrder v ft o acc = none) := by
  refine ⟨?_, ?_, ?_, ?_⟩
  · intro orders pos ft lev f h
    unfold orderMargin
    rw [accumOrders_eq_some _ _ _ _ h]
    rfl
  · intro orders pos ft lev f o ho hnone
    unfold orderMargin
    rw [accumOrders_eq_none _ _ _ _ ⟨o, ho, hnone⟩]
    rfl
  · intro v ft o acc ho hresting
    obtain ⟨p, hp⟩ := Option.isSome_iff_exists.mp ho
    by_cases hcap : acc.active_orders.length ≥ v.max_num_open_orders
    · have h1 : validateLimitOrder v ft o acc
          = some (Except.error OrderError.maxActiveOrders) := by
        unfold validateLimitOrder
        rw [if_pos hcap]
      rw [h1]
      rfl
    · have hall : ∀ x ∈ (insertKeyed acc.active_orders o.oid o).map Prod.snd,
          x.limitPrice.isSome := by
        intro x hx
        rcases insertKeyed_snd_mem _ _ _ _ hx with h1 | h1
        · obtain ⟨q, hq, hqx⟩ := List.mem_map.mp h1
          rw [← hqx]
          exact hresting q hq
        · rw [h1]; exact ho
      have hOM : (orderMargin ((insertKeyed acc.active_orders o.oid o).map Prod.snd)
          acc.position_size ft acc.leverage v.fee_maker).isSome := by
        unfold orderMargin
        rw [accumOrders_eq_some _ _ _ _ hall]
        rfl
      obtain ⟨m, hm⟩ := Option.isSome_iff_exists.mp hOM
      have hcost : limitOrderMarginCost v ft o acc
          = some (m - acc.order_margin) := by
        simp only [limitOrderMarginCost]
        rw [hm]
        rfl
      have hred : validateLimitOrder v ft o acc
          = (if o.side = Side.buy ∧ p > v.ask then
              some (Except.error OrderError.limitPriceLargerThanAsk)
            else if o.side = Side.sell ∧ p < v.bid then
              some (Except.error OrderError.limitPriceLowerThanBid)
            else
              (limitOrderMarginCost v ft o acc).map fun om =>
                if om > acc.available_balance then
                  Except.error OrderError.notEnoughAvailableBalance
                else Except.ok om) := by
        unfold validateLimitOrder
        rw [if_neg hcap, hp]
      rw [hred]
      by_cases h1 : o.side = Side.buy ∧ p > v.ask
      · rw [if_pos h1]; rfl
      · rw [if_neg h1]
        by_cases h2 : o.side = Side.sell ∧ p < v.bid
        · rw [if_pos h2]; rfl
        · rw [if_neg h2, hcost]
          rfl
  · intro v ft o acc hnone hcap
    unfold validateLimitOrder
    rw [if_neg (by omega), hnone]

theorem limitPrice_panic_characterization_witness :
    (orderMargin [limitOrder 0 Side.buy 100 1] 0 FuturesTypes.linear 1 0).isSome
    ∧ orderMargin [⟨0, Side.buy, 1, none⟩] 0 FuturesTypes.linear 1 0 = none
    ∧ (validateLimitOrder ⟨0, 0, 99, 100, 10⟩ FuturesTypes.linear
        (limitOrder 0 Side.buy 98 5) ⟨0, 1, 0, 1000, [], 0, 0⟩).isSome
    ∧ validateLimitOrder ⟨0, 0, 99, 100, 10⟩ FuturesTypes.linear
        ⟨0, Side.buy, 5, none⟩ ⟨0, 1, 0, 1000, [], 0, 0⟩ = none :=
  ⟨limitPrice_panic_characterization.1 _ _ _ _ _ (by intro o ho; simp at ho; subst ho; rfl),
   limitPrice_panic_characterization.2.1 [⟨0, Side.buy, 1, none⟩] 0
     FuturesTypes.linear 1 0 ⟨0, Side.buy, 1, none⟩ (List.mem_singleton.mpr rfl) rfl,
   limitPrice_panic_characterization.2.2.1 _ _ _ _ rfl (by intro p hp; simp at hp),
   limitPrice_panic_characterization.2.2.2 _ _ _ _ rfl (by norm_num)⟩
end Lfest

namespace Lfest

theorem applyTradeQuote_position (e : Exchange) (t : Trade) :
    (applyTradeQuote e t).position = e.position := by
  unfold applyTradeQuote
  split_ifs <;> rfl

theorem applyTradeQuote_orders (e : Exchange) (t : Trade) :
    (applyTradeQuote e t).orders_active = e.orders_active := by
  unfold applyTradeQuote
  split_ifs <;> rfl

theorem removeDoneAux_nil (i : ℕ) : removeDoneAux [] i = [] := by
  unfold removeDoneAux
  rw [dif_pos]
  simp

/-- `consume_trade`'s tail never reports a liquidation. -/
theorem consumeTradeFinish_not_true (e : Exchange) :
    (consumeTradeFinish e).map Prod.snd ≠ some true := by
  simp only [consumeTradeFinish]
  cases hc : checkOrders { e with margin := { e.margin with
      margin_balance := e.margin.wallet_balance + e.position.unrealized_pnl,
      position_margin := e.position.value / e.position.leverage + e.position.unrealized_pnl,
      available_balance := (e.margin.wallet_balance + e.position.unrealized_pnl)
        - (e.position.value / e.position.leverage + e.position.unrealized_pnl) } } with
  | none => simp [hc]
  | some e2 => simp [hc]

/-- On a state with no resting orders, `consume_trade`'s tail returns the
state with the three margin fields re-derived, and reports no
liquidation. -/
theorem consumeTradeFinish_eq (e : Exchange) (hno : e.orders_active = []) :
    consumeTradeFinish e = some
      ({ e with margin := { e.margin with
          margin_balance := e.margin.wallet_balance + e.position.unrealized_pnl,
          position_margin := e.position.value / e.position.leverage
            + e.position.unrealized_pnl,
          available_balance := (e.margin.wallet_balance + e.position.unrealized_pnl)
            - (e.position.value / e.position.leverage + e.position.unrealized_pnl) } },
        false) := by
  simp only [consumeTradeFinish, checkOrders]
  rw [show ({ e with margin := { e.margin with
      margin_balance := e.margin.wallet_balance + e.position.unrealized_pnl,
      position_margin := e.position.value / e.position.leverage + e.position.unrealized_pnl,
      available_balance := (e.margin.wallet_balance + e.position.unrealized_pnl)
        - (e.position.value / e.position.leverage + e.position.unrealized_pnl) } }
      : Exchange).orders_active = [] from hno]
  simp only [List.length_nil, checkOrdersScan, Option.map_some', removeDoneAux_nil]

end Lfest

namespace Lfest

/-- C2 (amended): after `consume_trade` returns without liquidation on a
state with no resting orders, the code establishes
`available_balance = margin_balance - position_margin` with
`margin_balance = wallet_balance + unrealized_pnl`; the order-margin field
is not subtracted, so the claimed identity
`available_balance = wallet_balance - position_margin - order_margin`
fails whenever `order_margin + unrealized_pnl` is nonzero. -/
theorem consumeTrade_margin_relation (e : Exchange) (t : Trade)
    (r : Exchange × Bool) (hno : e.orders_active = [])
    (h : consumeTrade e t = some r) (hfalse : r.2 = false) :
    r.1.margin.available_balance
        = r.1.margin.margin_balance - r.1.margin.position_margin
    ∧ r.1.margin.margin_balance
        = r.1.margin.wallet_balance + r.1.position.unrealized_pnl := by
  have ho1 : (applyTradeQuote e t).orders_active = [] := by
    rw [applyTradeQuote_orders]; exact hno
  unfold consumeTrade at h
  simp only [] at h
  split_ifs at h with h1 h2 h3 h4
  · rw [← Option.some.inj h] at hfalse
    simp at hfalse
  · rw [consumeTradeFinish_eq _ (by simpa using ho1)] at h
    rw [← Option.some.inj h]
    exact ⟨rfl, rfl⟩
  · rw [← Option.some.inj h] at hfalse
    simp at hfalse
  · rw [consumeTradeFinish_eq _ (by simpa using ho1)] at h
    rw [← Option.some.inj h]
    exact ⟨rfl, rfl⟩
  · rw [consumeTradeFinish_eq _ (by simpa using ho1)] at h
    rw [← Option.some.inj h]
    exact ⟨rfl, rfl⟩

theorem consumeTrade_margin_relation_witness :
    ((mkExchange ⟨0, 0, 0, 0, 0, 1, 0, 0⟩ ⟨1, 1, 0, 1, 1⟩ 100 100 []).margin.available_balance
        = (mkExchange ⟨0, 0, 0, 0, 0, 1, 0, 0⟩ ⟨1, 1, 0, 1, 1⟩ 100 100 []).margin.margin_balance
          - (mkExchange ⟨0, 0, 0, 0, 0, 1, 0, 0⟩ ⟨1, 1, 0, 1, 1⟩ 100 100 []).margin.position_margin)
    ∧ (mkExchange ⟨0, 0, 0, 0, 0, 1, 0, 0⟩ ⟨1, 1, 0, 1, 1⟩ 100 100 []).margin.margin_balance
        = (mkExchange ⟨0, 0, 0, 0, 0, 1, 0, 0⟩ ⟨1, 1, 0, 1, 1⟩ 100 100 []).margin.wallet_balance
          + (mkExchange ⟨0, 0, 0, 0, 0, 1, 0, 0⟩ ⟨1, 1, 0, 1, 1⟩ 100 100 []).position.unrealized_pnl :=
  consumeTrade_margin_relation
    (mkExchange ⟨0, 0, 0, 0, 0, 1, 0, 0⟩ ⟨1, 1, 0, 1, 0⟩ 100 100 []) ⟨0, 100, 1⟩
    (mkExchange ⟨0, 0, 0, 0, 0, 1, 0, 0⟩ ⟨1, 1, 0, 1, 1⟩ 100 100 [], false)
    rfl
    (by norm_num [consumeTrade, applyTradeQuote, consumeTradeFinish, checkOrders,
      checkOrdersScan, removeDoneAux_nil, mkExchange])
    rfl

/-- C2 is refuted: a `consume_trade` call that returns without liquidation
leaves `available_balance = 1` while
`wallet_balance - position_margin - order_margin = 0`. -/
theorem consumeTrade_breaks_claimed_identity :
    ((consumeTrade (mkExchange ⟨0, 0, 0, 0, 0, 1, 0, 0⟩ ⟨1, 1, 0, 1, 0⟩ 100 100 [])
        ⟨0, 100, 1⟩).map fun r =>
      (r.2, r.1.margin.available_balance,
        r.1.margin.wallet_balance - r.1.margin.position_margin - r.1.margin.order_margin))
      = some (false, 1, 0) ∧ (1 : ℚ) ≠ 0 := by
  constructor
  · norm_num [consumeTrade, applyTradeQuote, consumeTradeFinish, checkOrders,
      checkOrdersScan, removeDoneAux_nil, mkExchange]
  · norm_num

/-- C5 (amended): with a non-zero position, `consume_trade` liquidates
exactly when the trade price crosses the stored `liq_price` field (below
it for a long, above it for a short); the sign of the mark-to-market
available balance plays no role in the trigger. -/
theorem consumeTrade_liquidation_trigger (e : Exchange) (t : Trade)
    (hsz : e.position.size ≠ 0) :
    (consumeTrade e t).map Prod.snd = some true
      ↔ (if e.position.size > 0 then t.price < e.position.liq_price
         else t.price > e.position.liq_price) := by
  unfold consumeTrade
  simp only []
  rw [applyTradeQuote_position]
  by_cases h1 : e.position.size > 0
  · rw [if_pos h1, if_pos h1]
    by_cases h2 : t.price < e.position.liq_price
    · rw [if_pos h2]
      simp [h2]
    · rw [if_neg h2]
      constructor
      · intro hx
        exact absurd hx (consumeTradeFinish_not_true _)
      · intro hx
        exact absurd hx h2
  · rw [if_neg h1, if_neg h1]
    have h1x : e.position.size < 0 := lt_of_le_of_ne (not_lt.mp h1) hsz
    rw [if_pos h1x]
    by_cases h2 : t.price > e.position.liq_price
    · rw [if_pos h2]
      simp [h2]
    · rw [if_neg h2]
      constructor
      · intro hx
        exact absurd hx (consumeTradeFinish_not_true _)
      · intro hx
        exact absurd hx h2

theorem consumeTrade_liquidation_trigger_witness :
    (consumeTrade (mkExchange ⟨1, 1/100, 100, 50, 0, 2, 0, 0⟩
        ⟨1000, 1000, 1/200, 0, 999⟩ 100 100 []) ⟨0, 40, -1⟩).map Prod.snd
      = some true :=
  (consumeTrade_liquidation_trigger _ _ (by norm_num [mkExchange])).mpr
    (by norm_num [mkExchange])

/-- C5 is refuted: this long position is liquidated on a price drop to 40
(below the `liq_price` of 50) although the spec's mark-to-market condition
does not hold there (the account has ample balance). -/
theorem consumeTrade_liquidates_against_spec_condition :
    (consumeTrade (mkExchange ⟨1, 1/100, 100, 50, 0, 2, 0, 0⟩
        ⟨1000, 1000, 1/200, 0, 999⟩ 100 100 []) ⟨0, 40, -1⟩).map Prod.snd = some true
    ∧ ¬ specLiqCondition (mkExchange ⟨1, 1/100, 100, 50, 0, 2, 0, 0⟩
        ⟨1000, 1000, 1/200, 0, 999⟩ 100 100 []) ⟨0, 40, -1⟩ := by
  constructor
  · norm_num [consumeTrade, applyTradeQuote, mkExchange]
  · norm_num [specLiqCondition, applyTradeQuote, unrealizedPnl, mkExchange]

end Lfest

namespace Lfest

/-- C7: the code contradicts the spec's `try_decrease` rule. Selling 1
contract at bid 50 against a long of 2 contracts with entry 100 realizes
pnl AND re-averages the entry price to 250/3, where the spec (and the
newer execution engine's decrease path) keeps the entry price unchanged
at 100. -/
theorem sellMarket_decrease_moves_entry_price :
    ((sellMarket (mkExchange ⟨2, 1/50, 100, 0, 0, 1, 0, 0⟩
        ⟨1000, 1000, 0, 0, 1000⟩ 50 50 []) 1).map fun r =>
      (r.2, r.1.position.entry_price, r.1.position.size))
      = some (true, 250/3, 1) ∧ (250/3 : ℚ) ≠ 100 := by
  constructor
  · norm_num [sellMarket, mkExchange, unrealizedPnl, roe, updateLiqPrice]
  · norm_num

/-- C8 is refuted: `submit_order` stamps the accepted order with the
wall-clock reading, so the same submission at two different instants
yields different exchange states. -/
theorem submitOrder_depends_on_clock :
    submitOrder 0 (mkExchange ⟨0, 0, 0, 0, 0, 1, 0, 0⟩ ⟨1000, 1000, 0, 0, 1000⟩
        100 100 []) ⟨0, OrderTypeX.stopMarket, Side.buy, 101, 10, 0, false⟩
      ≠ submitOrder 1 (mkExchange ⟨0, 0, 0, 0, 0, 1, 0, 0⟩ ⟨1000, 1000, 0, 0, 1000⟩
        100 100 []) ⟨0, OrderTypeX.stopMarket, Side.buy, 101, 10, 0, false⟩ := by
  norm_num [submitOrder, validateStopMarketOrder, mkExchange]

/-- C8 (amended): the wall clock influences only the timestamp stamped on
the accepted order; erasing order timestamps, `submit_order` is a
deterministic function of its other inputs (and the remaining entry points
take no clock input at all). -/
theorem submitOrder_deterministic_up_to_timestamps (n1 n2 : ℕ) (e : Exchange)
    (o : OrderX) :
    (submitOrder n1 e o).map (fun r => (clearTimestamps r.1, r.2))
      = (submitOrder n2 e o).map fun r => (clearTimestamps r.1, r.2) := by
  obtain ⟨oid, ot, os, op, osz, ots, od⟩ := o
  unfold submitOrder
  by_cases hcap : e.orders_active.length ≥ e.config.max_active_orders
  · rw [if_pos hcap, if_pos hcap]
  · rw [if_neg hcap, if_neg hcap]
    cases ot <;> simp only []
    · by_cases hbal : osz / e.bid / e.position.leverage > e.margin.available_balance
      · rw [if_pos hbal, if_pos hbal]
      · rw [if_neg hbal, if_neg hbal]
        simp [clearTimestamps, List.map_append]
    · by_cases hv : validateStopMarketOrder e
          ⟨oid, OrderTypeX.stopMarket, os, op, osz, ots, od⟩ = false
      · rw [if_pos hv, if_pos hv]
      · rw [if_neg hv, if_neg hv]
        by_cases hbal : osz / e.bid / e.position.leverage > e.margin.available_balance
        · rw [if_pos hbal, if_pos hbal]
        · rw [if_neg hbal, if_neg hbal]
          simp [clearTimestamps, List.map_append]
    · by_cases hv : validateTakeProfitMarketOrder e
          ⟨oid, OrderTypeX.takeProfitMarket, os, op, osz, ots, od⟩ = false
      · rw [if_pos hv, if_pos hv]
      · rw [if_neg hv, if_neg hv]
        by_cases hbal : osz / e.bid / e.position.leverage > e.margin.available_balance
        · rw [if_pos hbal, if_pos hbal]
        · rw [if_neg hbal, if_neg hbal]
          simp [clearTimestamps, List.map_append]

end Lfest

namespace Lfest

theorem find_append_fresh (l : List (ℕ × Order)) (k : ℕ) (vv : Order)
    (h : ∀ p ∈ l, p.1 ≠ k) :
    (l ++ [(k, vv)]).find? (fun p => p.1 == k) = some (k, vv) := by
  induction l with
  | nil => simp
  | cons pr t ih =>
    have hp : ¬ ((fun q : ℕ × Order => q.1 == k) pr = true) := by
      simpa using h pr (List.mem_cons_self pr t)
    rw [List.cons_append,
      List.find?_cons_of_neg (p := fun q : ℕ × Order => q.1 == k) _ hp]
    exact ih fun q hq => h q (List.mem_cons_of_mem pr hq)

theorem filter_append_fresh (l : List (ℕ × Order)) (k : ℕ) (vv : Order)
    (h : ∀ p ∈ l, p.1 ≠ k) :
    (l ++ [(k, vv)]).filter (fun p => !(p.1 == k)) = l := by
  rw [List.filter_append]
  have h1 : [(k, vv)].filter (fun p : ℕ × Order => !(p.1 == k)) = [] := by simp
  have h2 : l.filter (fun p : ℕ × Order => !(p.1 == k)) = l :=
    List.filter_eq_self.mpr fun p hp => by simpa using h p hp
  rw [h1, h2, List.append_nil]

/-- C6: submitting a limit order (validated by the in-source validator,
inserted and charged per the spec's account contract) and then cancelling
it by its id restores `order_margin` and `available_balance` to exactly
their pre-submit values, provided the candidate id is fresh and the
account's order-margin field is consistent with its resting orders
(the net order-margin algorithm over them). -/
theorem submit_then_cancel_restores (v : Validator) (ft : FuturesTypes)
    (acc : Account) (o : Order) (acc1 : Account)
    (hfresh : ∀ p ∈ acc.active_orders, p.1 ≠ o.oid)
    (hom : acc.order_margin = specNetOrderMargin (acc.active_orders.map Prod.snd)
      acc.position_size ft acc.leverage v.fee_maker)
    (hsubmit : submitLimitOrder v ft acc o = some (Except.ok acc1)) :
    (cancelLimitOrder ft v.fee_maker acc1 o.oid).map
        (fun p => (p.1.order_margin, p.1.available_balance))
      = some (acc.order_margin, acc.available_balance) := by
  unfold submitLimitOrder at hsubmit
  cases hv : validateLimitOrder v ft o acc with
  | none => rw [hv] at hsubmit; simp at hsubmit
  | some r =>
    rw [hv, Option.map_some'] at hsubmit
    cases r with
    | error err => simp at hsubmit
    | ok om =>
      have hacc1 : appendLimitOrder acc o om = acc1 := by
        have h1 := Option.some.inj hsubmit
        simpa using h1
      subst hacc1
      have horders : (appendLimitOrder acc o om).active_orders
          = acc.active_orders ++ [(o.oid, o)] := by
        simp [appendLimitOrder, insertKeyed_fresh _ _ _ hfresh]
      have hfind : (appendLimitOrder acc o om).active_orders.find?
          (fun p => p.1 == o.oid) = some (o.oid, o) := by
        rw [horders]
        exact find_append_fresh _ _ _ hfresh
      have hfilter : (appendLimitOrder acc o om).active_orders.filter
          (fun p => !(p.1 == o.oid)) = acc.active_orders := by
        rw [horders]
        exact filter_append_fresh _ _ _ hfresh
      unfold cancelLimitOrder
      rw [hfind]
      simp only [Option.map_some']
      rw [hfilter]
      simp only [appendLimitOrder]
      rw [← hom]
      have harith : acc.available_balance - om
          + (acc.order_margin + om - acc.order_margin) = acc.available_balance := by
        ring
      rw [harith]

theorem submit_then_cancel_restores_witness :
    (cancelLimitOrder FuturesTypes.linear 0
        ⟨0, 1, 0 + 490, 1000 - 490, insertKeyed [] 3 (limitOrder 3 Side.buy 98 5),
          0 + 5, 0 + 0⟩ 3).map
        (fun p => (p.1.order_margin, p.1.available_balance))
      = some (0, 1000) :=
  submit_then_cancel_restores ⟨0, 0, 99, 100, 10⟩ FuturesTypes.linear
    ⟨0, 1, 0, 1000, [], 0, 0⟩ (limitOrder 3 Side.buy 98 5)
    ⟨0, 1, 0 + 490, 1000 - 490, insertKeyed [] 3 (limitOrder 3 Side.buy 98 5),
      0 + 5, 0 + 0⟩
    (by intro p hp; simp at hp)
    (by norm_num [specNetOrderMargin, lp])
    (by
      norm_num [submitLimitOrder, validateLimitOrder, limitOrderMarginCost,
        insertKeyed, orderMargin, accumOrders, omContrib, OMAcc.add, OMAcc.zero,
        omFromAcc, priceMult, limitOrder, appendLimitOrder]
      refine ⟨Except.ok 490, by simp, ?_⟩
      first
        | (simp <;> norm_num)
        | norm_num)
end Lfest
